import Mathlib

/-!
Shallow embedding of the recurring financial-event processor of the
glow-worm household-budgeting application (`app/tasks.py`), together with
proofs of the specification claims about it.

Conventions of the embedding:
* Python `datetime.date` values (stored as ISO `YYYY-MM-DD` strings in the
  database) become the `Date` structure below; comparison of zero-padded ISO
  strings coincides with lexicographic comparison of (year, month, day),
  which `Date.le` implements.
* Python `Decimal` amounts become `Rat` (exact rational arithmetic, as
  `Decimal` is exact for the additions/subtractions the tasks perform);
  `Decimal.quantize(Decimal("0.01"))` — which rounds half-to-even — becomes
  `quantizeCents`.
* Database rows become structures, tables become lists; `query(...).first()`
  becomes `List.find?`, `.all()` with a filter becomes `List.filter`, and
  in-place ORM mutation becomes an id-indexed `List.map` update.
-/

/-- A calendar date (models Python `datetime.date` / ISO `YYYY-MM-DD` strings). -/
structure Date where
  year : Nat
  month : Nat
  day : Nat
deriving DecidableEq, Repr

/-- Gregorian leap-year rule, as used by Python's `calendar` module. -/
def isLeapYear (y : Nat) : Bool :=
  y % 4 == 0 && (y % 100 != 0 || y % 400 == 0)

/-- Number of days in a month (`calendar.monthrange(y, m)[1]`).  The Python
function raises for a month outside 1..12; the tasks only call it with months
in range, and the embedding totalizes those unreachable inputs with 31. -/
def daysInMonth (y m : Nat) : Nat :=
  if m == 2 then (if isLeapYear y then 29 else 28)
  else if m == 4 || m == 6 || m == 9 || m == 11 then 30
  else 31

/-- A date is valid when its month and day are in calendar range. -/
def Date.Valid (d : Date) : Prop :=
  1 ≤ d.month ∧ d.month ≤ 12 ∧ 1 ≤ d.day ∧ d.day ≤ daysInMonth d.year d.month

instance (d : Date) : Decidable d.Valid := by
  unfold Date.Valid; infer_instance

/-- Lexicographic order on dates; agrees with comparison of the ISO
`YYYY-MM-DD` strings the database stores. -/
def Date.le (a b : Date) : Bool :=
  Nat.blt a.year b.year ||
    (a.year == b.year &&
      (Nat.blt a.month b.month ||
        (a.month == b.month && Nat.ble a.day b.day)))

/-- The day after `d` (helper for Python `timedelta` addition). -/
def Date.next (d : Date) : Date :=
  if d.day < daysInMonth d.year d.month then ⟨d.year, d.month, d.day + 1⟩
  else if d.month < 12 then ⟨d.year, d.month + 1, 1⟩
  else ⟨d.year + 1, 1, 1⟩

/-- `d + timedelta(days = n)`. -/
def Date.addDays (d : Date) : Nat → Date
  | 0 => d
  | n + 1 => (d.next).addDays n

/-- The `while month > 12: month -= 12; year += 1` loop of the quarterly
branch of `advance_due_date`, encoded with a fuel argument (each iteration
shrinks `month` by 12, so `month` itself bounds the number of iterations). -/
def wrapMonthAux : Nat → Nat → Nat → Nat × Nat
  | 0, year, month => (year, month)
  | fuel + 1, year, month =>
      if 12 < month then wrapMonthAux fuel (year + 1) (month - 12)
      else (year, month)

/-- Normalize a (year, month) pair with `month` possibly above 12. -/
def wrapMonth (year month : Nat) : Nat × Nat :=
  wrapMonthAux month year month

/-- `advance_due_date(current, frequency)` from `app/tasks.py`: advance a due
date based on frequency, clamping to the last day of the month. -/
def advance_due_date (current : Date) (frequency : String) : Date :=
  if frequency = "28_days" then
    current.addDays 28
  else if frequency = "monthly" then
    let month := current.month + 1
    let year := current.year
    let p := if month > 12 then (1, year + 1) else (month, year)
    let day := min current.day (daysInMonth p.2 p.1)
    ⟨p.2, p.1, day⟩
  else if frequency = "quarterly" then
    let p := wrapMonth current.year (current.month + 3)
    let day := min current.day (daysInMonth p.1 p.2)
    ⟨p.1, p.2, day⟩
  else if frequency = "yearly" then
    let year := current.year + 1
    let day := min current.day (daysInMonth year current.month)
    ⟨year, current.month, day⟩
  else
    current.addDays 30

theorem daysInMonth_ge (y m : Nat) : 28 ≤ daysInMonth y m := by
  unfold daysInMonth
  split
  · split <;> omega
  · split <;> omega

theorem wrapMonthAux_of_le (fuel y m : Nat) (h : m ≤ 12) :
    wrapMonthAux fuel y m = (y, m) := by
  cases fuel with
  | zero => rfl
  | succ k => simp only [wrapMonthAux, if_neg (by omega : ¬ 12 < m)]

theorem wrapMonth_of_le (y m : Nat) (h : m ≤ 12) : wrapMonth y m = (y, m) :=
  wrapMonthAux_of_le m y m h

theorem wrapMonth_of_gt (y m : Nat) (h1 : 12 < m) (h2 : m ≤ 24) :
    wrapMonth y m = (y + 1, m - 12) := by
  cases m with
  | zero => omega
  | succ n =>
      show wrapMonthAux (n + 1) y (n + 1) = _
      simp only [wrapMonthAux, if_pos h1]
      exact wrapMonthAux_of_le n (y + 1) (n + 1 - 12) (by omega)

theorem valid_mk (y m dd : Nat) (h1 : 1 ≤ m) (h2 : m ≤ 12) (h3 : 1 ≤ dd) :
    Date.Valid ⟨y, m, min dd (daysInMonth y m)⟩ := by
  have h4 := daysInMonth_ge y m
  exact ⟨h1, h2, Nat.le_min.mpr ⟨h3, by omega⟩, Nat.min_le_right _ _⟩

theorem advance_monthly_eq (d : Date) (h : d.month ≤ 12) :
    advance_due_date d "monthly" =
      if d.month = 12 then
        ⟨d.year + 1, 1, min d.day (daysInMonth (d.year + 1) 1)⟩
      else
        ⟨d.year, d.month + 1, min d.day (daysInMonth d.year (d.month + 1))⟩ := by
  have h0 : advance_due_date d "monthly" =
      ⟨(if 12 < d.month + 1 then ((1 : Nat), d.year + 1) else (d.month + 1, d.year)).2,
       (if 12 < d.month + 1 then ((1 : Nat), d.year + 1) else (d.month + 1, d.year)).1,
       min d.day
         (daysInMonth
           (if 12 < d.month + 1 then ((1 : Nat), d.year + 1) else (d.month + 1, d.year)).2
           (if 12 < d.month + 1 then ((1 : Nat), d.year + 1) else (d.month + 1, d.year)).1)⟩ :=
    rfl
  rw [h0]
  by_cases hgt : 12 < d.month + 1
  · simp only [if_pos hgt, if_pos (show d.month = 12 by omega)]
  · simp only [if_neg hgt, if_neg (show ¬ d.month = 12 by omega)]

theorem advance_quarterly_eq (d : Date) (h : d.month ≤ 12) :
    advance_due_date d "quarterly" =
      if 12 < d.month + 3 then
        ⟨d.year + 1, d.month + 3 - 12,
          min d.day (daysInMonth (d.year + 1) (d.month + 3 - 12))⟩
      else
        ⟨d.year, d.month + 3, min d.day (daysInMonth d.year (d.month + 3))⟩ := by
  have h0 : advance_due_date d "quarterly" =
      ⟨(wrapMonth d.year (d.month + 3)).1, (wrapMonth d.year (d.month + 3)).2,
        min d.day
          (daysInMonth (wrapMonth d.year (d.month + 3)).1
            (wrapMonth d.year (d.month + 3)).2)⟩ := rfl
  rw [h0]
  by_cases hgt : 12 < d.month + 3
  · rw [wrapMonth_of_gt d.year (d.month + 3) hgt (by omega), if_pos hgt]
  · rw [wrapMonth_of_le d.year (d.month + 3) (by omega), if_neg hgt]

theorem advance_yearly_eq (d : Date) :
    advance_due_date d "yearly" =
      ⟨d.year + 1, d.month, min d.day (daysInMonth (d.year + 1) d.month)⟩ := rfl

/-- C2: `advance_due_date` increments the month by 1 for `"monthly"` (rolling
the year past December), by 3 for `"quarterly"` (rolling the year), and the
year by 1 for `"yearly"` keeping the month; in all three cases the day is
clamped to `min(day, days in target month)` and the result is a valid date
(never overflows into the following month); with the four concrete instances
from the spec. -/
theorem advance_due_date_spec (d : Date) (h : d.Valid) :
    (advance_due_date d "monthly" =
      if d.month = 12 then
        ⟨d.year + 1, 1, min d.day (daysInMonth (d.year + 1) 1)⟩
      else
        ⟨d.year, d.month + 1, min d.day (daysInMonth d.year (d.month + 1))⟩) ∧
    (advance_due_date d "quarterly" =
      if 12 < d.month + 3 then
        ⟨d.year + 1, d.month + 3 - 12,
          min d.day (daysInMonth (d.year + 1) (d.month + 3 - 12))⟩
      else
        ⟨d.year, d.month + 3, min d.day (daysInMonth d.year (d.month + 3))⟩) ∧
    (advance_due_date d "yearly" =
      ⟨d.year + 1, d.month, min d.day (daysInMonth (d.year + 1) d.month)⟩) ∧
    (advance_due_date d "monthly").Valid ∧
    (advance_due_date d "quarterly").Valid ∧
    (advance_due_date d "yearly").Valid ∧
    advance_due_date ⟨2026, 1, 31⟩ "monthly" = ⟨2026, 2, 28⟩ ∧
    advance_due_date ⟨2028, 1, 31⟩ "monthly" = ⟨2028, 2, 29⟩ ∧
    advance_due_date ⟨2028, 2, 29⟩ "yearly" = ⟨2029, 2, 28⟩ ∧
    advance_due_date ⟨2026, 11, 15⟩ "quarterly" = ⟨2027, 2, 15⟩ := by
  obtain ⟨hm1, hm2, hd1, hd2⟩ := h
  refine ⟨advance_monthly_eq d hm2, advance_quarterly_eq d hm2,
    advance_yearly_eq d, ?_, ?_, ?_, by decide, by decide, by decide, by decide⟩
  · rw [advance_monthly_eq d hm2]
    by_cases h12 : d.month = 12
    · rw [if_pos h12]; exact valid_mk _ _ _ (by omega) (by omega) hd1
    · rw [if_neg h12]; exact valid_mk _ _ _ (by omega) (by omega) hd1
  · rw [advance_quarterly_eq d hm2]
    by_cases hgt : 12 < d.month + 3
    · rw [if_pos hgt]; exact valid_mk _ _ _ (by omega) (by omega) hd1
    · rw [if_neg hgt]; exact valid_mk _ _ _ (by omega) (by omega) hd1
  · rw [advance_yearly_eq d]
    exact valid_mk _ _ _ (by omega) (by omega) hd1

/-- Witness for C2 at the concrete date 2026-01-31. -/
theorem advance_due_date_spec_witness :
    Date.Valid ⟨2026, 1, 31⟩ ∧
      advance_due_date ⟨2026, 1, 31⟩ "monthly" = ⟨2026, 2, 28⟩ :=
  ⟨by decide, ((advance_due_date_spec ⟨2026, 1, 31⟩ (by decide)).2.2.2.2.2.2).1⟩

/-- A `sinking_funds` row (the fields the tasks read or write). -/
structure SinkingFund where
  id : Nat
  name : String
  current_balance : Rat
  is_deleted : Bool
deriving DecidableEq, Repr

/-- A `recurring_bills` row.  `bill_type` is the column added by migration
`d4e5f6a7b8c9` (served as `fixed`/`variable` by the bills routes); the task
code never reads it. -/
structure RecurringBill where
  id : Nat
  name : String
  amount : Rat
  debtor_provider : String
  frequency : String
  category_id : Nat
  is_active : Bool
  next_due_date : Date
  bill_type : String
deriving DecidableEq, Repr

/-- A `transactions` row (the fields the tasks write or filter on). -/
structure Transaction where
  date : Date
  description : String
  amount : Rat
  category_id : Nat
  type : String
  transaction_type : String
  sinking_fund_id : Option Nat
  recurring_bill_id : Option Nat
deriving DecidableEq, Repr

/-- The slice of the database that `process_due_bills` reads and writes. -/
structure BillsState where
  funds : List SinkingFund
  bills : List RecurringBill
  transactions : List Transaction
deriving DecidableEq, Repr

/-- The `SinkingFund.name == "Bills", SinkingFund.is_deleted == False` filter. -/
def isBillsFund (f : SinkingFund) : Bool :=
  f.name == "Bills" && !f.is_deleted

/-- The due-bills filter: `is_active == True`, `next_due_date <= today`. -/
def billDue (today : Date) (b : RecurringBill) : Bool :=
  b.is_active && Date.le b.next_due_date today

/-- The per-bill idempotency query: does a transaction with
`recurring_bill_id == bill.id` and `date == today` exist? -/
def hasBillTx (txs : List Transaction) (today : Date) (bid : Nat) : Bool :=
  txs.any fun t => t.recurring_bill_id == some bid && t.date == today

/-- The dual-linkage auto-payment transaction created for a due bill. -/
def payTx (today : Date) (bfid : Nat) (b : RecurringBill) : Transaction :=
  { date := today,
    description := "Auto-payment: " ++ b.name ++ " to " ++ b.debtor_provider,
    amount := b.amount,
    category_id := b.category_id,
    type := "expense",
    transaction_type := "regular",
    sinking_fund_id := some bfid,
    recurring_bill_id := some b.id }

/-- One iteration of the `for bill in due_bills` loop of `process_due_bills`:
skip if already paid today, otherwise add the dual-linkage transaction, debit
the Bills fund and advance the bill's `next_due_date` (from the bill's due
date as captured in the due list, which is the bill's current value: rows are
unique per primary key, so a bill is visited at most once per run). -/
def payBill (today : Date) (bfid : Nat) (st : BillsState) (b : RecurringBill) :
    BillsState :=
  if hasBillTx st.transactions today b.id then st
  else
    { funds := st.funds.map fun f =>
        if f.id == bfid then
          { f with current_balance := f.current_balance - b.amount }
        else f,
      bills := st.bills.map fun bb =>
        if bb.id == b.id then
          { bb with next_due_date := advance_due_date b.next_due_date b.frequency }
        else bb,
      transactions := st.transactions ++ [payTx today bfid b] }

/-- `process_due_bills(today)` from `app/tasks.py`: find the Bills fund (warn
and do nothing when absent), select active bills with `next_due_date <= today`,
and run the payment loop; the commit at the end is the identity on this pure
state (§ the session model below treats rollback). -/
def process_due_bills (today : Date) (s : BillsState) : BillsState :=
  match s.funds.find? isBillsFund with
  | none => s
  | some bf => (s.bills.filter (billDue today)).foldl (payBill today bf.id) s

/-- The Bills fund of the worked examples. -/
def exFund : SinkingFund := ⟨1, "Bills", 500, false⟩

/-- An active `bill_type = "variable"` bill due 2026-02-01. -/
def exVariableBill : RecurringBill :=
  ⟨1, "Electricity", 150, "Power Co", "monthly", 7, true, ⟨2026, 2, 1⟩, "variable"⟩

/-- Database state holding only the Bills fund and the variable bill. -/
def exVariableState : BillsState := ⟨[exFund], [exVariableBill], []⟩

/-- C1 (failing input): the claim says a due, active `bill_type = "variable"`
bill produces zero transactions, an unchanged Bills fund balance and an
unchanged `next_due_date`; the code has no `bill_type` filter in its due-bills
query, so such a bill is auto-paid like any other: one transaction is created,
the fund is debited by 150, and the due date advances to 2026-03-01. -/
theorem variable_bill_is_autopaid :
    exVariableBill.bill_type = "variable" ∧
    billDue ⟨2026, 2, 5⟩ exVariableBill = true ∧
    (process_due_bills ⟨2026, 2, 5⟩ exVariableState).transactions.length = 1 ∧
    (process_due_bills ⟨2026, 2, 5⟩ exVariableState).bills.map
        (fun b => b.next_due_date) = [⟨2026, 3, 1⟩] ∧
    (process_due_bills ⟨2026, 2, 5⟩ exVariableState).funds.map
        (fun f => f.current_balance) = [350] := by
  have hadv : advance_due_date ⟨2026, 2, 1⟩ "monthly" = ⟨2026, 3, 1⟩ := by decide
  refine ⟨rfl, by decide, ?_, ?_, ?_⟩ <;>
    simp +decide [process_due_bills, payBill, payTx, hasBillTx, billDue,
      isBillsFund, exVariableState, exFund, exVariableBill, hadv]
  norm_num

theorem payBill_of_hit {today : Date} {bfid : Nat} {st : BillsState}
    {b : RecurringBill} (hg : hasBillTx st.transactions today b.id = true) :
    payBill today bfid st b = st := by
  unfold payBill; rw [if_pos hg]

theorem payBill_bills_of_miss {today : Date} {bfid : Nat} {st : BillsState}
    {b : RecurringBill} (hg : hasBillTx st.transactions today b.id = false) :
    (payBill today bfid st b).bills = st.bills.map fun bb =>
      if bb.id == b.id then
        { bb with next_due_date := advance_due_date b.next_due_date b.frequency }
      else bb := by
  unfold payBill; rw [if_neg (by simp [hg])]

theorem payBill_txs_of_miss {today : Date} {bfid : Nat} {st : BillsState}
    {b : RecurringBill} (hg : hasBillTx st.transactions today b.id = false) :
    (payBill today bfid st b).transactions =
      st.transactions ++ [payTx today bfid b] := by
  unfold payBill; rw [if_neg (by simp [hg])]

theorem hasBillTx_append {txs l : List Transaction} {today : Date} {i : Nat}
    (h : hasBillTx txs today i = true) : hasBillTx (txs ++ l) today i = true := by
  unfold hasBillTx at *
  rw [List.any_append, h]
  rfl

theorem hasBillTx_payTx (txs : List Transaction) (today : Date) (bfid : Nat)
    (b : RecurringBill) :
    hasBillTx (txs ++ [payTx today bfid b]) today b.id = true := by
  unfold hasBillTx payTx
  rw [List.any_append]
  simp

theorem payBill_tx_mono {today : Date} {bfid : Nat} {st : BillsState}
    {b : RecurringBill} {i : Nat} (h : hasBillTx st.transactions today i = true) :
    hasBillTx (payBill today bfid st b).transactions today i = true := by
  unfold payBill
  split
  · exact h
  · exact hasBillTx_append h

/-- Every bill in the post-loop state that is due has a payment transaction
for today in the post-loop state, provided every due bill either already has
one or is still in the worklist. -/
theorem fold_guard (today : Date) (bfid : Nat) (L : List RecurringBill)
    (st : BillsState)
    (H : ∀ b' ∈ st.bills, billDue today b' = true →
      hasBillTx st.transactions today b'.id = true ∨ ∃ b ∈ L, b.id = b'.id) :
    ∀ b' ∈ (L.foldl (payBill today bfid) st).bills, billDue today b' = true →
      hasBillTx (L.foldl (payBill today bfid) st).transactions today b'.id = true := by
  induction L generalizing st with
  | nil =>
      intro b' hb' hdue
      rcases H b' hb' hdue with h | ⟨b, hb, _⟩
      · exact h
      · exact absurd hb (List.not_mem_nil b)
  | cons c L ih =>
      simp only [List.foldl_cons]
      apply ih
      intro b'' hb'' hdue''
      by_cases hg : hasBillTx st.transactions today c.id = true
      · rw [payBill_of_hit hg] at hb'' ⊢
        rcases H b'' hb'' hdue'' with h | ⟨b, hb, hid⟩
        · exact Or.inl h
        · rcases List.mem_cons.mp hb with rfl | hbL
          · exact Or.inl (hid ▸ hg)
          · exact Or.inr ⟨b, hbL, hid⟩
      · have hg' : hasBillTx st.transactions today c.id = false :=
          Bool.eq_false_iff.mpr hg
        rw [payBill_bills_of_miss hg'] at hb''
        rcases List.mem_map.mp hb'' with ⟨b0, hb0, hmap⟩
        by_cases hid : (b0.id == c.id) = true
        · rw [if_pos hid] at hmap
          subst hmap
          left
          rw [payBill_txs_of_miss hg']
          have hbid : b0.id = c.id := by simpa using hid
          have hproj :
              ({ b0 with
                  next_due_date :=
                    advance_due_date c.next_due_date c.frequency } :
                RecurringBill).id = b0.id := rfl
          rw [hproj, hbid]
          exact hasBillTx_payTx _ _ _ _
        · rw [if_neg hid] at hmap
          subst hmap
          rcases H b0 hb0 hdue'' with h | ⟨b, hb, hid2⟩
          · left
            rw [payBill_txs_of_miss hg']
            exact hasBillTx_append h
          · rcases List.mem_cons.mp hb with rfl | hbL
            · exact absurd (show (b0.id == b.id) = true by
                rw [← hid2]; simp) hid
            · exact Or.inr ⟨b, hbL, hid2⟩

/-- If every bill in the worklist already has a payment transaction for
today, the payment loop is the identity. -/
theorem fold_noop (today : Date) (bfid : Nat) (L : List RecurringBill)
    (st : BillsState)
    (H : ∀ b ∈ L, hasBillTx st.transactions today b.id = true) :
    L.foldl (payBill today bfid) st = st := by
  induction L with
  | nil => rfl
  | cons c L ih =>
      simp only [List.foldl_cons]
      rw [payBill_of_hit (H c (List.mem_cons_self c L))]
      exact ih fun b hb => H b (List.mem_cons_of_mem c hb)

/-- C3: running `process_due_bills` a second time for the same `today`, from
the state produced by the first run, is a no-op: the state (transactions,
fund balances, `next_due_date` values) is unchanged, because the per-bill
guard finds a transaction with `recurring_bill_id = bill.id` and
`date = today` for every still-due bill. -/
theorem process_due_bills_idempotent (today : Date) (s : BillsState) :
    process_due_bills today (process_due_bills today s) =
      process_due_bills today s := by
  cases hf : s.funds.find? isBillsFund with
  | none =>
      have h1 : process_due_bills today s = s := by
        unfold process_due_bills; rw [hf]
      rw [h1]
      exact h1
  | some bf =>
      have h1 : process_due_bills today s =
          (s.bills.filter (billDue today)).foldl (payBill today bf.id) s := by
        unfold process_due_bills; rw [hf]
      have hguard : ∀ b' ∈
          ((s.bills.filter (billDue today)).foldl (payBill today bf.id) s).bills,
          billDue today b' = true →
          hasBillTx
            ((s.bills.filter (billDue today)).foldl
              (payBill today bf.id) s).transactions today b'.id = true := by
        apply fold_guard
        intro b' hb' hdue
        exact Or.inr ⟨b', List.mem_filter.mpr ⟨hb', hdue⟩, rfl⟩
      rw [h1]
      set T := (s.bills.filter (billDue today)).foldl (payBill today bf.id) s
        with hT
      unfold process_due_bills
      cases hf2 : T.funds.find? isBillsFund with
      | none => rfl
      | some bf2 =>
          show (T.bills.filter (billDue today)).foldl (payBill today bf2.id) T = T
          apply fold_noop
          intro b hb
          have hmem := List.mem_filter.mp hb
          exact hguard b hmem.1 hmem.2

/-- Number of transactions linking bill `bid` to `today` (the size of the
result set of the per-bill idempotency query). -/
def billTxCount (txs : List Transaction) (today : Date) (bid : Nat) : Nat :=
  (txs.filter fun t => t.recurring_bill_id == some bid && t.date == today).length

theorem hasBillTx_false_iff (txs : List Transaction) (today : Date) (i : Nat) :
    hasBillTx txs today i = false ↔ billTxCount txs today i = 0 := by
  unfold hasBillTx billTxCount
  rw [List.length_eq_zero, List.any_eq_false, List.filter_eq_nil_iff]

theorem payBill_txCount_other {today : Date} {bfid : Nat} {st : BillsState}
    {c : RecurringBill} {i : Nat} (hne : c.id ≠ i) :
    billTxCount (payBill today bfid st c).transactions today i =
      billTxCount st.transactions today i := by
  by_cases hg : hasBillTx st.transactions today c.id = true
  · rw [payBill_of_hit hg]
  · rw [payBill_txs_of_miss (Bool.eq_false_iff.mpr hg)]
    unfold billTxCount
    rw [List.filter_append, List.length_append]
    simp [payTx, hne]

theorem payBill_txCount_self {today : Date} {bfid : Nat} {st : BillsState}
    {c : RecurringBill}
    (hg : hasBillTx st.transactions today c.id = false) :
    billTxCount (payBill today bfid st c).transactions today c.id =
      billTxCount st.transactions today c.id + 1 := by
  rw [payBill_txs_of_miss hg]
  unfold billTxCount
  rw [List.filter_append, List.length_append]
  simp [payTx]

theorem payBill_bills_mem_other {today : Date} {bfid : Nat} {st : BillsState}
    {c : RecurringBill} {x : RecurringBill} (hx : x ∈ st.bills)
    (hne : x.id ≠ c.id) : x ∈ (payBill today bfid st c).bills := by
  by_cases hg : hasBillTx st.transactions today c.id = true
  · rw [payBill_of_hit hg]; exact hx
  · rw [payBill_bills_of_miss (Bool.eq_false_iff.mpr hg)]
    have hfix : (fun bb : RecurringBill =>
        if bb.id == c.id then
          { bb with next_due_date := advance_due_date c.next_due_date c.frequency }
        else bb) x = x := by
      simp only [if_neg (by simp [hne] : ¬ (x.id == c.id) = true)]
    exact hfix ▸ List.mem_map_of_mem _ hx

theorem fold_txCount_other (today : Date) (bfid : Nat) (L : List RecurringBill)
    (st : BillsState) (i : Nat) (hL : ∀ c ∈ L, c.id ≠ i) :
    billTxCount ((L.foldl (payBill today bfid) st)).transactions today i =
      billTxCount st.transactions today i := by
  induction L generalizing st with
  | nil => rfl
  | cons c L ih =>
      simp only [List.foldl_cons]
      rw [ih _ fun d hd => hL d (List.mem_cons_of_mem c hd)]
      exact payBill_txCount_other (hL c (List.mem_cons_self c L))

theorem fold_bills_mem (today : Date) (bfid : Nat) (L : List RecurringBill)
    (st : BillsState) (x : RecurringBill) (hx : x ∈ st.bills)
    (hL : ∀ c ∈ L, c.id ≠ x.id) :
    x ∈ (L.foldl (payBill today bfid) st).bills := by
  induction L generalizing st with
  | nil => exact hx
  | cons c L ih =>
      simp only [List.foldl_cons]
      exact ih _ (payBill_bills_mem_other hx (fun he =>
          hL c (List.mem_cons_self c L) he.symm))
        fun d hd => hL d (List.mem_cons_of_mem c hd)

/-- C6: a due bill with no payment transaction for today gets exactly one
transaction dated today, and its `next_due_date` is advanced by applying
`advance_due_date` exactly once to the bill's previous `next_due_date` (not
to `today`), however overdue the bill is. -/
theorem process_due_bills_one_cycle
    (today : Date) (s : BillsState) (bf : SinkingFund) (b : RecurringBill)
    (hf : s.funds.find? isBillsFund = some bf)
    (hmem : b ∈ s.bills)
    (hdue : billDue today b = true)
    (hno : hasBillTx s.transactions today b.id = false)
    (hnodup : (s.bills.map RecurringBill.id).Nodup) :
    ({ b with next_due_date := advance_due_date b.next_due_date b.frequency }
        ∈ (process_due_bills today s).bills) ∧
    billTxCount (process_due_bills today s).transactions today b.id = 1 ∧
    billTxCount s.transactions today b.id = 0 := by
  have h1 : process_due_bills today s =
      (s.bills.filter (billDue today)).foldl (payBill today bf.id) s := by
    unfold process_due_bills; rw [hf]
  have hbD : b ∈ s.bills.filter (billDue today) :=
    List.mem_filter.mpr ⟨hmem, hdue⟩
  obtain ⟨D1, D2, hD⟩ := List.append_of_mem hbD
  have hDnodup : ((s.bills.filter (billDue today)).map RecurringBill.id).Nodup :=
    hnodup.sublist ((List.filter_sublist s.bills).map RecurringBill.id)
  rw [hD, List.map_append, List.map_cons] at hDnodup
  have hsplit := List.nodup_append.mp hDnodup
  have hD1 : ∀ c ∈ D1, c.id ≠ b.id := by
    intro c hc he
    exact (hsplit.2.2 (he ▸ List.mem_map_of_mem RecurringBill.id hc)
      (List.mem_cons_self _ _)).elim
  have hD2 : ∀ c ∈ D2, c.id ≠ b.id := by
    intro c hc he
    exact ((List.nodup_cons.mp hsplit.2.1).1
      (he ▸ List.mem_map_of_mem RecurringBill.id hc)).elim
  have hcnt0 : billTxCount s.transactions today b.id = 0 :=
    (hasBillTx_false_iff _ _ _).mp hno
  rw [h1, hD, List.foldl_append, List.foldl_cons]
  have hcnt1 : billTxCount
      (D1.foldl (payBill today bf.id) s).transactions today b.id = 0 := by
    rw [fold_txCount_other today bf.id D1 s b.id hD1]
    exact hcnt0
  have hg1 : hasBillTx
      (D1.foldl (payBill today bf.id) s).transactions today b.id = false :=
    (hasBillTx_false_iff _ _ _).mpr hcnt1
  have hmem1 : b ∈ (D1.foldl (payBill today bf.id) s).bills :=
    fold_bills_mem today bf.id D1 s b hmem fun c hc => hD1 c hc
  have hmem2 :
      ({ b with next_due_date := advance_due_date b.next_due_date b.frequency }
        : RecurringBill) ∈
        (payBill today bf.id (D1.foldl (payBill today bf.id) s) b).bills := by
    rw [payBill_bills_of_miss hg1]
    have hfb : (fun bb : RecurringBill =>
        if bb.id == b.id then
          { bb with next_due_date := advance_due_date b.next_due_date b.frequency }
        else bb) b =
        { b with next_due_date := advance_due_date b.next_due_date b.frequency } := by
      simp
    exact hfb ▸ List.mem_map_of_mem _ hmem1
  have hcnt2 : billTxCount
      (payBill today bf.id (D1.foldl (payBill today bf.id) s) b).transactions
        today b.id = 1 := by
    rw [payBill_txCount_self hg1, hcnt1]
  refine ⟨?_, ?_, hcnt0⟩
  · exact fold_bills_mem today bf.id D2 _ _ hmem2 fun c hc => hD2 c hc
  · rw [fold_txCount_other today bf.id D2 _ b.id hD2]
    exact hcnt2

/-- Witness for C6: the spec's overdue example — a monthly bill due
2026-02-01 processed on 2026-02-05 is paid once, dated today, and its next
due date becomes 2026-03-01. -/
theorem process_due_bills_one_cycle_witness :
    ({ exVariableBill with next_due_date := ⟨2026, 3, 1⟩ }
        ∈ (process_due_bills ⟨2026, 2, 5⟩ exVariableState).bills) ∧
    billTxCount (process_due_bills ⟨2026, 2, 5⟩ exVariableState).transactions
      ⟨2026, 2, 5⟩ 1 = 1 := by
  have h := process_due_bills_one_cycle ⟨2026, 2, 5⟩ exVariableState exFund
    exVariableBill (by decide) (by decide) (by decide) (by decide) (by decide)
  have hadv : advance_due_date (⟨2026, 2, 1⟩ : Date) "monthly" = ⟨2026, 3, 1⟩ := by
    decide
  exact ⟨by simpa [exVariableBill, hadv] using h.1, h.2.1⟩

/-- An `income_allocation_to_sinking_funds` junction row. -/
structure Junction where
  sinking_fund_id : Nat
  allocation_amount : Rat
deriving DecidableEq, Repr

/-- The `income_allocations` configuration row (`IncomeAllocation` in the
tasks; the junction rows are inlined as its `sinking_fund_allocations`
relationship). -/
structure IncomeAllocation where
  monthly_income_amount : Rat
  monthly_budget_allocation : Rat
  bills_fund_allocation_type : String
  bills_fund_fixed_amount : Option Rat
  sinking_fund_allocations : List Junction
deriving DecidableEq, Repr

/-- A `categories` row (the fields the tasks read). -/
structure Category where
  id : Nat
  type : String
  is_budget_category : Bool
  is_deleted : Bool
deriving DecidableEq, Repr

/-- A `budgets` row (the fields the tasks write). -/
structure Budget where
  category_id : Nat
  month : Nat
  year : Nat
  allocated_amount : Rat
  spent_amount : Rat
  fund_balance : Rat
deriving DecidableEq, Repr

/-- A `monthly_unallocated_income` row. -/
structure MonthlyUnallocatedIncome where
  month : Nat
  year : Nat
  unallocated_amount : Rat
deriving DecidableEq, Repr

/-- The slice of the database that `process_income_allocation` reads and
writes; `allocations` is the `income_allocations` table, whose first row is
the configuration singleton (`query(IncomeAllocation).first()`). -/
structure IncomeState where
  funds : List SinkingFund
  bills : List RecurringBill
  transactions : List Transaction
  allocations : List IncomeAllocation
  categories : List Category
  budgets : List Budget
  unallocated : List MonthlyUnallocatedIncome
deriving DecidableEq, Repr

/-- The `FREQUENCY_ANNUAL_MULTIPLIER` dictionary with its `.get(freq, 1)`
default. -/
def FREQUENCY_ANNUAL_MULTIPLIER (f : String) : Rat :=
  if f = "monthly" then 12
  else if f = "quarterly" then 4
  else if f = "yearly" then 1
  else if f = "28_days" then 13036 / 1000
  else 1

/-- The `total_annual` sum of `_compute_bills_recommended`: Python
`sum(.., Decimal("0"))` over the active bills returned by the query. -/
def total_annual (bills : List RecurringBill) : Rat :=
  (bills.filter fun b => b.is_active).foldl
    (fun acc b => acc + b.amount * FREQUENCY_ANNUAL_MULTIPLIER b.frequency) 0

/-- Round a rational to an integer, half to even (the default
`decimal.ROUND_HALF_EVEN` used by `Decimal.quantize`). -/
def roundHalfEven (q : Rat) : Int :=
  let f : Int := ⌊q⌋
  if q - f < 1 / 2 then f
  else if 1 / 2 < q - f then f + 1
  else if f % 2 = 0 then f else f + 1

/-- `Decimal.quantize(Decimal("0.01"))`: round to 2 decimal places, half to
even. -/
def quantizeCents (q : Rat) : Rat := (roundHalfEven (q * 100) : Rat) / 100

/-- `_compute_bills_recommended` from `app/tasks.py` (the division
`total_annual / 12` is exact here where `Decimal` division rounds to 28
significant digits; the two agree on every 2-decimal outcome the claims
concern). -/
def _compute_bills_recommended (bills : List RecurringBill) : Rat :=
  let t := total_annual bills
  if t = 0 then 0 else quantizeCents (t / 12)

theorem foldl_add_eq_sum (g : RecurringBill → Rat) (l : List RecurringBill)
    (acc : Rat) :
    l.foldl (fun a b => a + g b) acc = acc + (l.map g).sum := by
  induction l generalizing acc with
  | nil => simp
  | cons b l ih =>
      simp only [List.foldl_cons, List.map_cons, List.sum_cons, ih]
      ring

/-- Multiplier table as the spec's claim words it: `monthly→12`,
`quarterly→4`, `yearly→1`, `28_days→13.036` (modelled from the claim text,
for comparison with the source table). -/
def specAnnualMultiplier (f : String) : Rat :=
  if f = "monthly" then 12
  else if f = "quarterly" then 4
  else if f = "yearly" then 1
  else if f = "28_days" then 13036 / 1000
  else 0

theorem quantizeCents_zero : quantizeCents 0 = 0 := by
  norm_num [quantizeCents, roundHalfEven]

/-- C7: the recommended monthly Bills allocation is the sum over active
bills of amount times the per-frequency multiplier, divided by 12 and
rounded (half to even) to 2 decimals, and it is `0.00` with no active
bills. -/
theorem compute_bills_recommended_spec (bills : List RecurringBill)
    (h : ∀ b ∈ bills, b.is_active = true →
      b.frequency ∈ (["monthly", "quarterly", "yearly", "28_days"] : List String)) :
    _compute_bills_recommended bills =
      quantizeCents
        ((((bills.filter fun b => b.is_active).map
            fun b => b.amount * specAnnualMultiplier b.frequency).sum) / 12) ∧
    ((bills.filter fun b => b.is_active) = [] →
      _compute_bills_recommended bills = 0) := by
  have hmaps : ((bills.filter fun b => b.is_active).map
      fun b => b.amount * specAnnualMultiplier b.frequency) =
      ((bills.filter fun b => b.is_active).map
        fun b => b.amount * FREQUENCY_ANNUAL_MULTIPLIER b.frequency) := by
    apply List.map_congr_left
    intro b hb
    have hmem := List.mem_filter.mp hb
    have hfreq := h b hmem.1 hmem.2
    simp only [List.mem_cons, List.mem_singleton] at hfreq
    rcases hfreq with hm | hm | hm | hm | hm
    · rw [hm]; norm_num [specAnnualMultiplier, FREQUENCY_ANNUAL_MULTIPLIER]
    · rw [hm]; norm_num [specAnnualMultiplier, FREQUENCY_ANNUAL_MULTIPLIER]
    · rw [hm]; norm_num [specAnnualMultiplier, FREQUENCY_ANNUAL_MULTIPLIER]
    · rw [hm]; norm_num [specAnnualMultiplier, FREQUENCY_ANNUAL_MULTIPLIER]
    · exact absurd hm (by simp)
  have htot : total_annual bills =
      ((bills.filter fun b => b.is_active).map
        fun b => b.amount * FREQUENCY_ANNUAL_MULTIPLIER b.frequency).sum := by
    unfold total_annual
    rw [foldl_add_eq_sum]
    ring
  constructor
  · unfold _compute_bills_recommended
    rw [hmaps, ← htot]
    by_cases h0 : total_annual bills = 0
    · rw [if_pos h0, h0]
      norm_num [quantizeCents_zero]
    · rw [if_neg h0]
  · intro hnil
    unfold _compute_bills_recommended
    rw [htot, hnil]
    simp

/-- Witness for C7 at one active monthly bill of amount 1200 (recommended
allocation 1200.00) and at the empty bill table. -/
theorem compute_bills_recommended_spec_witness :
    _compute_bills_recommended
      [⟨1, "Rent", 1200, "Landlord", "monthly", 7, true, ⟨2026, 2, 1⟩, "fixed"⟩] =
      quantizeCents
        (((([⟨1, "Rent", 1200, "Landlord", "monthly", 7, true, ⟨2026, 2, 1⟩,
              "fixed"⟩] : List RecurringBill).filter
            fun b => b.is_active).map
            fun b => b.amount * specAnnualMultiplier b.frequency).sum / 12) ∧
    _compute_bills_recommended [] = 0 :=
  ⟨(compute_bills_recommended_spec _ (by decide)).1,
   (compute_bills_recommended_spec [] (by simp)).2 rfl⟩

/-- C9: an active bill whose frequency is outside the known set is not
skipped by `_compute_bills_recommended` and does not raise: the dictionary
lookup's default multiplier 1 applies, so it contributes `amount * 1` to the
annual total. -/
theorem unknown_frequency_contributes (b : RecurringBill)
    (bills : List RecurringBill) (hact : b.is_active = true)
    (hf : b.frequency ∉ (["monthly", "quarterly", "yearly", "28_days"] : List String)) :
    FREQUENCY_ANNUAL_MULTIPLIER b.frequency = 1 ∧
    total_annual (b :: bills) = b.amount * 1 + total_annual bills := by
  simp only [List.mem_cons, List.mem_singleton, not_or] at hf
  have hmul : FREQUENCY_ANNUAL_MULTIPLIER b.frequency = 1 := by
    unfold FREQUENCY_ANNUAL_MULTIPLIER
    rw [if_neg hf.1, if_neg hf.2.1, if_neg hf.2.2.1, if_neg hf.2.2.2.1]
  refine ⟨hmul, ?_⟩
  unfold total_annual
  rw [List.filter_cons_of_pos (by simp [hact]), List.foldl_cons,
    foldl_add_eq_sum, foldl_add_eq_sum, hmul]
  ring

/-- Witness for C9 at a concrete `frequency = "weekly"` bill. -/
theorem unknown_frequency_contributes_witness :
    FREQUENCY_ANNUAL_MULTIPLIER "weekly" = 1 ∧
    total_annual
      [⟨3, "Gym", 25, "Gym Co", "weekly", 7, true, ⟨2026, 2, 1⟩, "fixed"⟩] =
      25 * 1 + total_annual [] := by
  have h := unknown_frequency_contributes
    ⟨3, "Gym", 25, "Gym Co", "weekly", 7, true, ⟨2026, 2, 1⟩, "fixed"⟩ []
    rfl (by decide)
  exact h

/-- English month name, as Python's `strftime("%B")` renders it. -/
def monthName : Nat → String
  | 1 => "January"
  | 2 => "February"
  | 3 => "March"
  | 4 => "April"
  | 5 => "May"
  | 6 => "June"
  | 7 => "July"
  | 8 => "August"
  | 9 => "September"
  | 10 => "October"
  | 11 => "November"
  | 12 => "December"
  | _ => ""

/-- First day of `today`'s month (the `month_start` ISO string). -/
def monthStart (today : Date) : Date := ⟨today.year, today.month, 1⟩

/-- Last day of `today`'s month (the `month_end` ISO string, built with
`calendar.monthrange`). -/
def monthEnd (today : Date) : Date :=
  ⟨today.year, today.month, daysInMonth today.year today.month⟩

/-- The idempotency query of `process_income_allocation`:
`transaction_type == "income"` and `month_start <= date <= month_end`. -/
def isMonthIncomeTx (today : Date) (t : Transaction) : Bool :=
  t.transaction_type == "income" && Date.le (monthStart today) t.date &&
    Date.le t.date (monthEnd today)

/-- The monthly income transaction (step 1 of the allocator). -/
def incomeTx (today : Date) (catId : Nat) (amt : Rat) : Transaction :=
  { date := today,
    description := "Monthly income — " ++ monthName today.month ++ " " ++
      toString today.year,
    amount := amt,
    category_id := catId,
    type := "income",
    transaction_type := "income",
    sinking_fund_id := none,
    recurring_bill_id := none }

/-- The per-fund allocation transaction (step 2 of the allocator). -/
def allocTx (today : Date) (ecId : Nat) (f : SinkingFund) (amt : Rat) :
    Transaction :=
  { date := today,
    description := "Income allocation to " ++ f.name,
    amount := amt,
    category_id := ecId,
    type := "expense",
    transaction_type := "income_allocation",
    sinking_fund_id := some f.id,
    recurring_bill_id := none }

/-- The Bills-fund allocation transaction (step 3 of the allocator). -/
def billsTx (today : Date) (ecId bfId : Nat) (amt : Rat) : Transaction :=
  { date := today,
    description := "Income allocation to Bills fund",
    amount := amt,
    category_id := ecId,
    type := "expense",
    transaction_type := "income_allocation",
    sinking_fund_id := some bfId,
    recurring_bill_id := none }

/-- Accumulator threaded through the fund-allocation loop: the funds table
(balances mutate in place), the transactions table (adds), and
`total_allocated`. -/
structure AllocAcc where
  funds : List SinkingFund
  txs : List Transaction
  total : Rat
deriving DecidableEq, Repr

/-- One iteration of the `for junction in allocation.sinking_fund_allocations`
loop: skip the Bills fund's junction, resolve the target fund (skip if
soft-deleted/missing), skip non-positive amounts, otherwise add the
transaction, credit the fund and accumulate `total_allocated`. -/
def stepJunction (today : Date) (ecId : Nat) (bfid : Option Nat)
    (acc : AllocAcc) (j : Junction) : AllocAcc :=
  if some j.sinking_fund_id == bfid then acc
  else
    match acc.funds.find? fun f => f.id == j.sinking_fund_id && !f.is_deleted with
    | none => acc
    | some fund =>
        if j.allocation_amount ≤ 0 then acc
        else
          ⟨acc.funds.map fun f =>
              if f.id == fund.id then
                { f with current_balance := f.current_balance + j.allocation_amount }
              else f,
            acc.txs ++ [allocTx today ecId fund j.allocation_amount],
            acc.total + j.allocation_amount⟩

/-- The Bills contribution amount: the configured fixed amount
(`bills_fund_fixed_amount or 0`) when the allocation type is `"fixed"`,
otherwise the recommended amount from the active bills. -/
def billsAmount (alloc : IncomeAllocation) (bills : List RecurringBill) : Rat :=
  if alloc.bills_fund_allocation_type = "fixed" then
    alloc.bills_fund_fixed_amount.getD 0
  else _compute_bills_recommended bills

/-- Step 3 of the allocator: when the Bills fund exists and the contribution
is positive, add its transaction, credit the fund, and accumulate. -/
def applyBillsStep (today : Date) (ecId : Nat) (alloc : IncomeAllocation)
    (bills : List RecurringBill) (bf : Option SinkingFund) (acc : AllocAcc) :
    AllocAcc :=
  match bf with
  | none => acc
  | some f =>
      let amt := billsAmount alloc bills
      if 0 < amt then
        ⟨acc.funds.map fun g =>
            if g.id == f.id then
              { g with current_balance := g.current_balance + amt }
            else g,
          acc.txs ++ [billsTx today ecId f.id amt],
          acc.total + amt⟩
      else acc

/-- Step 4 of the allocator: create a zeroed Budget row for every non-deleted
budget-flagged category that lacks one for `(month, year)`. -/
def seedBudgets (month year : Nat) (cats : List Category)
    (budgets : List Budget) : List Budget :=
  cats.foldl
    (fun bs c =>
      if (bs.find? fun bu =>
          bu.category_id == c.id && bu.month == month && bu.year == year).isSome
      then bs
      else bs ++ [⟨c.id, month, year, 0, 0, 0⟩])
    budgets

/-- Step 5 of the allocator: overwrite the `(month, year)` row if present
(the query's first match), append it otherwise. -/
def upsertUnallocated (l : List MonthlyUnallocatedIncome) (m y : Nat)
    (v : Rat) : List MonthlyUnallocatedIncome :=
  match l with
  | [] => [⟨m, y, v⟩]
  | r :: rs =>
      if r.month == m && r.year == y then
        { r with unallocated_amount := v } :: rs
      else r :: upsertUnallocated rs m y v

/-- The body of `process_income_allocation` after its early-exit guards:
income transaction, fund-allocation loop, Bills step, budget seeding, and
the unallocated-income upsert
(`unallocated = income − (loop total + bills contribution + budget)`). -/
def applyIncomeAllocation (today : Date) (s : IncomeState)
    (alloc : IncomeAllocation) (ic ec : Category) : IncomeState :=
  let txs1 := s.transactions ++ [incomeTx today ic.id alloc.monthly_income_amount]
  let bf := s.funds.find? isBillsFund
  let acc := alloc.sinking_fund_allocations.foldl
    (stepJunction today ec.id (bf.map fun f => f.id)) ⟨s.funds, txs1, 0⟩
  let acc2 := applyBillsStep today ec.id alloc s.bills bf acc
  { s with
    funds := acc2.funds,
    transactions := acc2.txs,
    budgets := seedBudgets today.month today.year
      (s.categories.filter fun c => c.is_budget_category && !c.is_deleted)
      s.budgets,
    unallocated := upsertUnallocated s.unallocated today.month today.year
      (alloc.monthly_income_amount - (acc2.total + alloc.monthly_budget_allocation)) }

/-- `process_income_allocation(today)` from `app/tasks.py`: early exits (month
already processed, no configuration, missing income/expense category), then
the allocation body; the single commit at the end is the identity on this
pure state (the session model below treats rollback). -/
def process_income_allocation (today : Date) (s : IncomeState) : IncomeState :=
  if s.transactions.any (isMonthIncomeTx today) then s
  else
    match s.allocations.head? with
    | none => s
    | some alloc =>
        match s.categories.find? fun c => c.type == "income" && !c.is_deleted with
        | none => s
        | some ic =>
            match s.categories.find? fun c =>
                c.type == "expense" && !c.is_deleted with
            | none => s
            | some ec => applyIncomeAllocation today s alloc ic ec

theorem process_income_of_processed {today : Date} {s : IncomeState}
    (hg : s.transactions.any (isMonthIncomeTx today) = true) :
    process_income_allocation today s = s := by
  unfold process_income_allocation
  rw [if_pos hg]

theorem process_income_of_no_alloc {today : Date} {s : IncomeState}
    (hg : s.transactions.any (isMonthIncomeTx today) = false)
    (ha : s.allocations.head? = none) :
    process_income_allocation today s = s := by
  simp only [process_income_allocation, hg, ha, Bool.false_eq_true, if_false]

theorem process_income_of_no_income_cat {today : Date} {s : IncomeState}
    {alloc : IncomeAllocation}
    (hg : s.transactions.any (isMonthIncomeTx today) = false)
    (ha : s.allocations.head? = some alloc)
    (hic : s.categories.find? (fun c => c.type == "income" && !c.is_deleted)
      = none) :
    process_income_allocation today s = s := by
  simp only [process_income_allocation, hg, ha, hic, Bool.false_eq_true,
    if_false]

theorem process_income_of_no_expense_cat {today : Date} {s : IncomeState}
    {alloc : IncomeAllocation} {ic : Category}
    (hg : s.transactions.any (isMonthIncomeTx today) = false)
    (ha : s.allocations.head? = some alloc)
    (hic : s.categories.find? (fun c => c.type == "income" && !c.is_deleted)
      = some ic)
    (hec : s.categories.find? (fun c => c.type == "expense" && !c.is_deleted)
      = none) :
    process_income_allocation today s = s := by
  simp only [process_income_allocation, hg, ha, hic, hec, Bool.false_eq_true,
    if_false]

theorem process_income_of_success {today : Date} {s : IncomeState}
    {alloc : IncomeAllocation} {ic ec : Category}
    (hg : s.transactions.any (isMonthIncomeTx today) = false)
    (ha : s.allocations.head? = some alloc)
    (hic : s.categories.find? (fun c => c.type == "income" && !c.is_deleted)
      = some ic)
    (hec : s.categories.find? (fun c => c.type == "expense" && !c.is_deleted)
      = some ec) :
    process_income_allocation today s = applyIncomeAllocation today s alloc ic ec := by
  simp only [process_income_allocation, hg, ha, hic, hec, Bool.false_eq_true,
    if_false]

theorem any_eq_false_iff_filter_len {α : Type} (p : α → Bool) (l : List α) :
    l.any p = false ↔ (l.filter p).length = 0 := by
  rw [List.length_eq_zero, List.any_eq_false, List.filter_eq_nil_iff]

/-- Count of in-month income transactions (the result-set size of the
idempotency query). -/
def monthIncomeCount (today : Date) (txs : List Transaction) : Nat :=
  (txs.filter (isMonthIncomeTx today)).length

theorem isMonthIncomeTx_allocTx (today : Date) (ecId : Nat) (f : SinkingFund)
    (amt : Rat) : isMonthIncomeTx today (allocTx today ecId f amt) = false := rfl

theorem isMonthIncomeTx_billsTx (today : Date) (ecId bfId : Nat) (amt : Rat) :
    isMonthIncomeTx today (billsTx today ecId bfId amt) = false := rfl

theorem date_le_month_bounds {today : Date} (hv : today.Valid) :
    Date.le (monthStart today) today = true ∧
      Date.le today (monthEnd today) = true := by
  obtain ⟨h1, h2, h3, h4⟩ := hv
  simp only [Date.le, monthStart, monthEnd]
  simp only [Bool.or_eq_true, Bool.and_eq_true, Nat.blt_eq, Nat.ble_eq,
    beq_iff_eq, lt_self_iff_false, false_or, true_and]
  exact ⟨h3, h4⟩

theorem isMonthIncomeTx_incomeTx {today : Date} (hv : today.Valid)
    (catId : Nat) (amt : Rat) :
    isMonthIncomeTx today (incomeTx today catId amt) = true := by
  obtain ⟨hle1, hle2⟩ := date_le_month_bounds hv
  unfold isMonthIncomeTx incomeTx
  simp only [Bool.and_eq_true]
  exact ⟨⟨rfl, hle1⟩, hle2⟩

theorem stepJunction_txs_mono {today : Date} {ecId : Nat} {bfid : Option Nat}
    {acc : AllocAcc} {j : Junction} {t : Transaction} (h : t ∈ acc.txs) :
    t ∈ (stepJunction today ecId bfid acc j).txs := by
  unfold stepJunction
  split
  · exact h
  · split
    · exact h
    · split
      · exact h
      · exact List.mem_append_left _ h

theorem stepJunction_incomeCount (today : Date) (ecId : Nat)
    (bfid : Option Nat) (acc : AllocAcc) (j : Junction) :
    monthIncomeCount today (stepJunction today ecId bfid acc j).txs =
      monthIncomeCount today acc.txs := by
  unfold stepJunction
  split
  · rfl
  · split
    · rfl
    · split
      · rfl
      · show monthIncomeCount today (acc.txs ++ [allocTx _ _ _ _]) = _
        unfold monthIncomeCount
        rw [List.filter_append, List.length_append,
          List.filter_cons_of_neg (by simp [isMonthIncomeTx_allocTx])]
        rfl

theorem foldJunction_txs_mono {today : Date} {ecId : Nat} {bfid : Option Nat}
    {js : List Junction} {acc : AllocAcc} {t : Transaction} (h : t ∈ acc.txs) :
    t ∈ (js.foldl (stepJunction today ecId bfid) acc).txs := by
  induction js generalizing acc with
  | nil => exact h
  | cons j js ih => exact ih (stepJunction_txs_mono h)

theorem foldJunction_incomeCount (today : Date) (ecId : Nat)
    (bfid : Option Nat) (js : List Junction) (acc : AllocAcc) :
    monthIncomeCount today (js.foldl (stepJunction today ecId bfid) acc).txs =
      monthIncomeCount today acc.txs := by
  induction js generalizing acc with
  | nil => rfl
  | cons j js ih => rw [List.foldl_cons, ih, stepJunction_incomeCount]

theorem applyBillsStep_txs_mono {today : Date} {ecId : Nat}
    {alloc : IncomeAllocation} {bills : List RecurringBill}
    {bf : Option SinkingFund} {acc : AllocAcc} {t : Transaction}
    (h : t ∈ acc.txs) :
    t ∈ (applyBillsStep today ecId alloc bills bf acc).txs := by
  unfold applyBillsStep
  split
  · exact h
  · dsimp only
    split
    · exact List.mem_append_left _ h
    · exact h

theorem applyBillsStep_incomeCount (today : Date) (ecId : Nat)
    (alloc : IncomeAllocation) (bills : List RecurringBill)
    (bf : Option SinkingFund) (acc : AllocAcc) :
    monthIncomeCount today (applyBillsStep today ecId alloc bills bf acc).txs =
      monthIncomeCount today acc.txs := by
  unfold applyBillsStep
  split
  · rfl
  · dsimp only
    split
    · show monthIncomeCount today (acc.txs ++ [billsTx _ _ _ _]) = _
      unfold monthIncomeCount
      rw [List.filter_append, List.length_append,
        List.filter_cons_of_neg (by simp [isMonthIncomeTx_billsTx])]
      rfl
    · rfl

theorem applyIncome_income_mem (today : Date) (s : IncomeState)
    (alloc : IncomeAllocation) (ic ec : Category) :
    incomeTx today ic.id alloc.monthly_income_amount ∈
      (applyIncomeAllocation today s alloc ic ec).transactions := by
  simp only [applyIncomeAllocation]
  exact applyBillsStep_txs_mono (foldJunction_txs_mono
    (List.mem_append_right _ (List.mem_singleton_self _)))

theorem applyIncome_incomeCount {today : Date} (hv : today.Valid)
    (s : IncomeState) (alloc : IncomeAllocation) (ic ec : Category) :
    monthIncomeCount today
        (applyIncomeAllocation today s alloc ic ec).transactions =
      monthIncomeCount today s.transactions + 1 := by
  simp only [applyIncomeAllocation]
  rw [applyBillsStep_incomeCount, foldJunction_incomeCount]
  unfold monthIncomeCount
  rw [List.filter_append, List.length_append,
    List.filter_cons_of_pos (by rw [isMonthIncomeTx_incomeTx hv])]
  rfl

/-- Re-running the allocator on its own output is a no-op: a successful run
leaves an in-month income transaction that trips the guard, and an early exit
leaves the state unchanged. -/
theorem process_income_twice (today : Date) (s : IncomeState)
    (hv : today.Valid) :
    process_income_allocation today (process_income_allocation today s) =
      process_income_allocation today s := by
  by_cases hg : s.transactions.any (isMonthIncomeTx today) = true
  · have h := process_income_of_processed hg
    rw [h]
    exact h
  · have hg' : s.transactions.any (isMonthIncomeTx today) = false :=
      Bool.eq_false_iff.mpr hg
    cases ha : s.allocations.head? with
    | none =>
        have h := process_income_of_no_alloc hg' ha
        rw [h]
        exact h
    | some alloc =>
        cases hic : s.categories.find?
            (fun c => c.type == "income" && !c.is_deleted) with
        | none =>
            have h := process_income_of_no_income_cat hg' ha hic
            rw [h]
            exact h
        | some ic =>
            cases hec : s.categories.find?
                (fun c => c.type == "expense" && !c.is_deleted) with
            | none =>
                have h := process_income_of_no_expense_cat hg' ha hic hec
                rw [h]
                exact h
            | some ec =>
                have hsucc := process_income_of_success hg' ha hic hec
                have hmem : incomeTx today ic.id alloc.monthly_income_amount ∈
                    (process_income_allocation today s).transactions := by
                  rw [hsucc]
                  exact applyIncome_income_mem today s alloc ic ec
                have hany : (process_income_allocation today s).transactions.any
                    (isMonthIncomeTx today) = true :=
                  List.any_eq_true.mpr
                    ⟨_, hmem, isMonthIncomeTx_incomeTx hv ic.id _⟩
                exact process_income_of_processed hany

/-- C4: if any income transaction dated inside the current month exists,
`process_income_allocation` returns with the state unchanged (no transaction,
fund credit, Budget row, or unallocated-income change); running it any
number of times in the month equals running it once, and a run from a fresh
month leaves at most one in-month income transaction — exactly one unless it
exited early. -/
theorem process_income_allocation_idempotent (today : Date) (s : IncomeState)
    (hv : today.Valid) :
    (s.transactions.any (isMonthIncomeTx today) = true →
      process_income_allocation today s = s) ∧
    process_income_allocation today (process_income_allocation today s) =
      process_income_allocation today s ∧
    (∀ n : Nat, (process_income_allocation today)^[n + 1] s =
      process_income_allocation today s) ∧
    (s.transactions.any (isMonthIncomeTx today) = false →
      monthIncomeCount today (process_income_allocation today s).transactions = 1 ∨
        process_income_allocation today s = s) := by
  refine ⟨fun hg => process_income_of_processed hg,
    process_income_twice today s hv, ?_, ?_⟩
  · intro n
    induction n with
    | zero => rfl
    | succ n ih =>
        rw [Function.iterate_succ_apply', ih]
        exact process_income_twice today s hv
  · intro hg
    cases ha : s.allocations.head? with
    | none => exact Or.inr (process_income_of_no_alloc hg ha)
    | some alloc =>
        cases hic : s.categories.find?
            (fun c => c.type == "income" && !c.is_deleted) with
        | none => exact Or.inr (process_income_of_no_income_cat hg ha hic)
        | some ic =>
            cases hec : s.categories.find?
                (fun c => c.type == "expense" && !c.is_deleted) with
            | none => exact Or.inr (process_income_of_no_expense_cat hg ha hic hec)
            | some ec =>
                left
                rw [process_income_of_success hg ha hic hec,
                  applyIncome_incomeCount hv s alloc ic ec]
                have h0 : monthIncomeCount today s.transactions = 0 :=
                  (any_eq_false_iff_filter_len _ _).mp hg
                rw [h0]

/-- Witness for C4 at a concrete fresh February 2026 state. -/
theorem process_income_allocation_idempotent_witness :
    Date.Valid ⟨2026, 2, 1⟩ ∧
      (((⟨[], [], [], [], [], [], []⟩ : IncomeState).transactions.any
          (isMonthIncomeTx ⟨2026, 2, 1⟩) = false) →
        monthIncomeCount ⟨2026, 2, 1⟩
            (process_income_allocation ⟨2026, 2, 1⟩
              ⟨[], [], [], [], [], [], []⟩).transactions = 1 ∨
          process_income_allocation ⟨2026, 2, 1⟩ ⟨[], [], [], [], [], [], []⟩ =
            ⟨[], [], [], [], [], [], []⟩) :=
  ⟨by decide,
   (process_income_allocation_idempotent ⟨2026, 2, 1⟩ _ (by decide)).2.2.2⟩

theorem find?_isSome_eq_any {α : Type} (p : α → Bool) (l : List α) :
    (l.find? p).isSome = l.any p := by
  induction l with
  | nil => rfl
  | cons a l ih =>
      cases h : p a with
      | true => simp [List.find?_cons, List.any_cons, h]
      | false => simp [List.find?_cons, List.any_cons, h, ih]

/-- The id/soft-deletion signature of the funds table; fund-resolution
queries factor through it, and the loop only mutates balances, so it is a
loop invariant. -/
def fundsSig (funds : List SinkingFund) : List (Nat × Bool) :=
  funds.map fun f => (f.id, f.is_deleted)

theorem any_fund_pred_of_sig {l1 l2 : List SinkingFund}
    (h : fundsSig l1 = fundsSig l2) (sid : Nat) :
    (l1.any fun f => f.id == sid && !f.is_deleted) =
      (l2.any fun f => f.id == sid && !f.is_deleted) := by
  have e : ∀ l : List SinkingFund,
      (l.any fun f => f.id == sid && !f.is_deleted) =
        (fundsSig l).any fun pr => pr.1 == sid && !pr.2 := by
    intro l
    induction l with
    | nil => rfl
    | cons f fs ih => simp [List.any_cons, fundsSig, ih]
  rw [e l1, e l2, h]

/-- Whether a junction row results in an applied allocation: not the Bills
fund's junction, its fund resolves non-deleted, and its amount is positive. -/
def junctionApplies (funds : List SinkingFund) (bfid : Option Nat)
    (j : Junction) : Bool :=
  !(some j.sinking_fund_id == bfid) &&
    (funds.any fun f => f.id == j.sinking_fund_id && !f.is_deleted) &&
    decide (0 < j.allocation_amount)

/-- Sum of the applied junction allocations. -/
def appliedSum (funds : List SinkingFund) (bfid : Option Nat)
    (js : List Junction) : Rat :=
  ((js.filter (junctionApplies funds bfid)).map fun j => j.allocation_amount).sum

theorem junctionApplies_sig {l1 l2 : List SinkingFund}
    (h : fundsSig l1 = fundsSig l2) (bfid : Option Nat) (j : Junction) :
    junctionApplies l1 bfid j = junctionApplies l2 bfid j := by
  unfold junctionApplies
  rw [any_fund_pred_of_sig h]

theorem appliedSum_sig {l1 l2 : List SinkingFund}
    (h : fundsSig l1 = fundsSig l2) (bfid : Option Nat) (js : List Junction) :
    appliedSum l1 bfid js = appliedSum l2 bfid js := by
  unfold appliedSum
  rw [List.filter_congr fun j _ => junctionApplies_sig h bfid j]

theorem fundsSig_credit (funds : List SinkingFund) (u : Nat) (amt : Rat) :
    fundsSig (funds.map fun f =>
      if f.id == u then { f with current_balance := f.current_balance + amt }
      else f) = fundsSig funds := by
  unfold fundsSig
  rw [List.map_map]
  apply List.map_congr_left
  intro f _
  by_cases h : (f.id == u) = true
  · simp only [Function.comp_apply, if_pos h]
  · simp only [Function.comp_apply, if_neg h]

theorem stepJunction_found (today : Date) (ecId : Nat) (bfid : Option Nat)
    (acc : AllocAcc) (j : Junction) (fund : SinkingFund)
    (h1 : ¬ (some j.sinking_fund_id == bfid) = true)
    (hfind : acc.funds.find?
      (fun f => f.id == j.sinking_fund_id && !f.is_deleted) = some fund) :
    stepJunction today ecId bfid acc j =
      if j.allocation_amount ≤ 0 then acc
      else
        ⟨acc.funds.map fun f =>
            if f.id == fund.id then
              { f with current_balance := f.current_balance + j.allocation_amount }
            else f,
          acc.txs ++ [allocTx today ecId fund j.allocation_amount],
          acc.total + j.allocation_amount⟩ := by
  unfold stepJunction
  rw [if_neg h1, hfind]

theorem stepJunction_total_sig (today : Date) (ecId : Nat) (bfid : Option Nat)
    (acc : AllocAcc) (j : Junction) :
    (stepJunction today ecId bfid acc j).total =
      acc.total +
        (if junctionApplies acc.funds bfid j = true then j.allocation_amount
         else 0) ∧
    fundsSig (stepJunction today ecId bfid acc j).funds = fundsSig acc.funds := by
  by_cases h1 : (some j.sinking_fund_id == bfid) = true
  · have hstep : stepJunction today ecId bfid acc j = acc := by
      unfold stepJunction
      rw [if_pos h1]
    have hap : junctionApplies acc.funds bfid j = false := by
      unfold junctionApplies
      rw [h1]
      rfl
    rw [hstep, hap]
    exact ⟨by norm_num, rfl⟩
  · cases hfind : acc.funds.find?
        (fun f => f.id == j.sinking_fund_id && !f.is_deleted) with
    | none =>
        have hstep : stepJunction today ecId bfid acc j = acc := by
          unfold stepJunction
          rw [if_neg h1, hfind]
        have hap : junctionApplies acc.funds bfid j = false := by
          unfold junctionApplies
          have hany : (acc.funds.any
              fun f => f.id == j.sinking_fund_id && !f.is_deleted) = false := by
            rw [← find?_isSome_eq_any, hfind]
            rfl
          rw [hany]
          simp
        rw [hstep, hap]
        exact ⟨by norm_num, rfl⟩
    | some fund =>
        by_cases hle : j.allocation_amount ≤ 0
        · have hstep : stepJunction today ecId bfid acc j = acc := by
            rw [stepJunction_found today ecId bfid acc j fund h1 hfind,
              if_pos hle]
          have hap : junctionApplies acc.funds bfid j = false := by
            unfold junctionApplies
            rw [decide_eq_false (not_lt.mpr hle)]
            simp
          rw [hstep, hap]
          exact ⟨by norm_num, rfl⟩
        · have hstep : stepJunction today ecId bfid acc j =
              ⟨acc.funds.map fun f =>
                  if f.id == fund.id then
                    { f with current_balance :=
                        f.current_balance + j.allocation_amount }
                  else f,
                acc.txs ++ [allocTx today ecId fund j.allocation_amount],
                acc.total + j.allocation_amount⟩ := by
            rw [stepJunction_found today ecId bfid acc j fund h1 hfind,
              if_neg hle]
          have hap : junctionApplies acc.funds bfid j = true := by
            unfold junctionApplies
            have hany : (acc.funds.any
                fun f => f.id == j.sinking_fund_id && !f.is_deleted) = true := by
              rw [← find?_isSome_eq_any, hfind]
              rfl
            rw [hany, Bool.eq_false_iff.mpr h1,
              decide_eq_true (not_le.mp hle)]
            rfl
          rw [hstep, hap]
          exact ⟨by norm_num, fundsSig_credit acc.funds fund.id j.allocation_amount⟩

theorem foldJunction_total (today : Date) (ecId : Nat) (bfid : Option Nat)
    (js : List Junction) (acc : AllocAcc) :
    (js.foldl (stepJunction today ecId bfid) acc).total =
      acc.total + appliedSum acc.funds bfid js ∧
    fundsSig (js.foldl (stepJunction today ecId bfid) acc).funds =
      fundsSig acc.funds := by
  induction js generalizing acc with
  | nil => exact ⟨by simp [appliedSum], rfl⟩
  | cons j js ih =>
      obtain ⟨hst, hss⟩ := stepJunction_total_sig today ecId bfid acc j
      obtain ⟨iht, ihs⟩ := ih (stepJunction today ecId bfid acc j)
      have hsum : appliedSum (stepJunction today ecId bfid acc j).funds bfid js =
          appliedSum acc.funds bfid js := appliedSum_sig hss bfid js
      have hcons : appliedSum acc.funds bfid (j :: js) =
          (if junctionApplies acc.funds bfid j = true then j.allocation_amount
           else 0) + appliedSum acc.funds bfid js := by
        unfold appliedSum
        by_cases h : junctionApplies acc.funds bfid j = true
        · rw [List.filter_cons_of_pos h, List.map_cons, List.sum_cons, if_pos h]
        · rw [List.filter_cons_of_neg (by simp [h]), if_neg h, zero_add]
      constructor
      · rw [List.foldl_cons, iht, hsum, hst, hcons]
        ring
      · rw [List.foldl_cons, ihs, hss]

/-- The Bills-fund contribution actually applied by step 3: zero when the
fund is absent or the computed amount is not positive. -/
def billsContrib (alloc : IncomeAllocation) (bills : List RecurringBill)
    (bf : Option SinkingFund) : Rat :=
  match bf with
  | none => 0
  | some _ =>
      if 0 < billsAmount alloc bills then billsAmount alloc bills else 0

theorem applyBillsStep_total (today : Date) (ecId : Nat)
    (alloc : IncomeAllocation) (bills : List RecurringBill)
    (bf : Option SinkingFund) (acc : AllocAcc) :
    (applyBillsStep today ecId alloc bills bf acc).total =
      acc.total + billsContrib alloc bills bf := by
  unfold applyBillsStep billsContrib
  cases bf with
  | none => norm_num
  | some f =>
      dsimp only
      by_cases h : 0 < billsAmount alloc bills
      · rw [if_pos h, if_pos h]
      · rw [if_neg h, if_neg h]
        norm_num

theorem lookupUnallocated_upsert (l : List MonthlyUnallocatedIncome)
    (m y : Nat) (v : Rat) :
    ((upsertUnallocated l m y v).find? fun r =>
        r.month == m && r.year == y).map (fun r => r.unallocated_amount) =
      some v := by
  induction l with
  | nil => simp [upsertUnallocated]
  | cons r rs ih =>
      unfold upsertUnallocated
      by_cases h : (r.month == m && r.year == y) = true
      · rw [if_pos h]
        rw [List.find?_cons_of_pos _ (by simpa using h)]
        rfl
      · rw [if_neg h]
        rw [List.find?_cons_of_neg _ (by simpa using h)]
        exact ih

theorem upsert_length (l : List MonthlyUnallocatedIncome) (m y : Nat)
    (v : Rat) :
    (upsertUnallocated l m y v).length =
      if l.any (fun r => r.month == m && r.year == y) then l.length
      else l.length + 1 := by
  induction l with
  | nil => rfl
  | cons r rs ih =>
      unfold upsertUnallocated
      by_cases h : (r.month == m && r.year == y) = true
      · rw [if_pos h, List.length_cons, List.length_cons,
          if_pos (by simp [List.any_cons, h])]
      · rw [if_neg h, List.length_cons, List.length_cons, ih,
          List.any_cons, Bool.eq_false_iff.mpr h, Bool.false_or]
        by_cases h2 : (rs.any fun r => r.month == m && r.year == y) = true
        · rw [if_pos h2, if_pos h2]
        · rw [if_neg h2, if_neg h2]

/-- The resulting `unallocated` table of a successful allocation run:
the `(month, year)` row is upserted with
`income − (applied fund allocations + bills contribution + budget)`. -/
theorem applyIncome_unallocated (today : Date) (s : IncomeState)
    (alloc : IncomeAllocation) (ic ec : Category) :
    (applyIncomeAllocation today s alloc ic ec).unallocated =
      upsertUnallocated s.unallocated today.month today.year
        (alloc.monthly_income_amount -
          (appliedSum s.funds ((s.funds.find? isBillsFund).map fun f => f.id)
              alloc.sinking_fund_allocations
            + billsContrib alloc s.bills (s.funds.find? isBillsFund)
            + alloc.monthly_budget_allocation)) := by
  simp only [applyIncomeAllocation]
  congr 1
  rw [applyBillsStep_total,
    (foldJunction_total today ec.id ((s.funds.find? isBillsFund).map fun f => f.id)
      alloc.sinking_fund_allocations ⟨s.funds,
        s.transactions ++ [incomeTx today ic.id alloc.monthly_income_amount], 0⟩).1]
  ring

/-- Lookup of the recorded unallocated amount for a month/year. -/
def lookupUnallocated (l : List MonthlyUnallocatedIncome) (m y : Nat) :
    Option Rat :=
  (l.find? fun r => r.month == m && r.year == y).map fun r => r.unallocated_amount

/-- C5: after a successful run, the recorded `unallocated_amount` for
`(month, year)` equals `monthly_income_amount` minus the applied non-Bills
fund allocations, minus the Bills contribution (when applied), minus
`monthly_budget_allocation`; the row is appended when absent and overwritten
in place when present. -/
theorem process_income_unallocated_spec (today : Date) (s : IncomeState)
    (alloc : IncomeAllocation) (ic ec : Category)
    (hg : s.transactions.any (isMonthIncomeTx today) = false)
    (ha : s.allocations.head? = some alloc)
    (hic : s.categories.find? (fun c => c.type == "income" && !c.is_deleted)
      = some ic)
    (hec : s.categories.find? (fun c => c.type == "expense" && !c.is_deleted)
      = some ec) :
    lookupUnallocated (process_income_allocation today s).unallocated
        today.month today.year =
      some (alloc.monthly_income_amount
        - appliedSum s.funds ((s.funds.find? isBillsFund).map fun f => f.id)
            alloc.sinking_fund_allocations
        - billsContrib alloc s.bills (s.funds.find? isBillsFund)
        - alloc.monthly_budget_allocation) ∧
    (process_income_allocation today s).unallocated.length =
      (if s.unallocated.any
          (fun r => r.month == today.month && r.year == today.year)
       then s.unallocated.length else s.unallocated.length + 1) := by
  rw [process_income_of_success hg ha hic hec, applyIncome_unallocated]
  constructor
  · unfold lookupUnallocated
    rw [lookupUnallocated_upsert]
    congr 1
    ring
  · rw [upsert_length]

/-- Funds for the worked income-allocation example. -/
def exIncomeFunds : List SinkingFund := [⟨1, "Bills", 0, false⟩, ⟨2, "Holiday", 0, false⟩]

/-- One active monthly bill of 1200 (recommended contribution 1200.00/month). -/
def exIncomeBills : List RecurringBill :=
  [⟨5, "Rent", 1200, "Landlord", "monthly", 7, true, ⟨2026, 2, 10⟩, "fixed"⟩]

/-- Income 5000, budget allocation 800, recommended Bills type, one junction
of 500 to fund 2. -/
def exAlloc : IncomeAllocation := ⟨5000, 800, "recommended", none, [⟨2, 500⟩]⟩

def exIncomeCat : Category := ⟨10, "income", false, false⟩

def exExpenseCat : Category := ⟨11, "expense", false, false⟩

/-- The worked income-allocation state for February 2026. -/
def exIncomeState : IncomeState :=
  ⟨exIncomeFunds, exIncomeBills, [], [exAlloc], [exIncomeCat, exExpenseCat], [], []⟩

/-- Witness for C5: the spec's conservation example records
`5000 − 500 − 1200 − 800 = 2500`. -/
theorem process_income_unallocated_spec_witness :
    lookupUnallocated
      (process_income_allocation ⟨2026, 2, 1⟩ exIncomeState).unallocated 2 2026 =
      some 2500 := by
  have h := (process_income_unallocated_spec ⟨2026, 2, 1⟩ exIncomeState exAlloc
    exIncomeCat exExpenseCat rfl rfl rfl rfl).1
  have hbc : billsContrib exAlloc exIncomeState.bills
      (exIncomeState.funds.find? isBillsFund) = 1200 := by
    norm_num +decide [billsContrib, billsAmount, exAlloc, exIncomeState,
      exIncomeBills, exIncomeFunds, isBillsFund, _compute_bills_recommended,
      total_annual, FREQUENCY_ANNUAL_MULTIPLIER, quantizeCents, roundHalfEven]
  have has : appliedSum exIncomeState.funds
      ((exIncomeState.funds.find? isBillsFund).map fun f => f.id)
      exAlloc.sinking_fund_allocations = 500 := by
    norm_num [appliedSum, junctionApplies, exIncomeState, exIncomeFunds,
      exAlloc, isBillsFund]
  rw [hbc, has] at h
  norm_num [exAlloc] at h
  exact h

/-- The balances of the fund-table entries with id `i`. -/
def fundBalancesAt (funds : List SinkingFund) (i : Nat) : List Rat :=
  (funds.filter fun f => f.id == i).map fun f => f.current_balance

/-- The `income_allocation` transactions credited to fund id `i`. -/
def fundAllocTxs (txs : List Transaction) (i : Nat) : List Transaction :=
  txs.filter fun t =>
    t.sinking_fund_id == some i && t.transaction_type == "income_allocation"

theorem fundBalancesAt_credit_ne (funds : List SinkingFund) (i u : Nat)
    (amt : Rat) (hne : u ≠ i) :
    fundBalancesAt (funds.map fun f =>
      if f.id == u then { f with current_balance := f.current_balance + amt }
      else f) i = fundBalancesAt funds i := by
  unfold fundBalancesAt
  rw [List.filter_map]
  have hpg : ∀ f ∈ funds,
      (((fun f : SinkingFund => f.id == i) ∘ fun f =>
        if f.id == u then { f with current_balance := f.current_balance + amt }
        else f) f) = (f.id == i) := by
    intro f _
    by_cases h : (f.id == u) = true
    · simp only [Function.comp_apply, if_pos h]
    · simp only [Function.comp_apply, if_neg h]
  rw [List.filter_congr hpg, List.map_map]
  apply List.map_congr_left
  intro f hf
  have hfi : (f.id == i) = true := (List.mem_filter.mp hf).2
  have hfu : (f.id == u) = false := by
    have : f.id = i := by simpa using hfi
    simp [this, Ne.symm hne]
  simp only [Function.comp_apply, hfu, Bool.false_eq_true, if_false]

theorem stepJunction_preserves_bills_fund (today : Date) (ecId i : Nat)
    (acc : AllocAcc) (j : Junction) :
    fundBalancesAt (stepJunction today ecId (some i) acc j).funds i =
      fundBalancesAt acc.funds i ∧
    fundAllocTxs (stepJunction today ecId (some i) acc j).txs i =
      fundAllocTxs acc.txs i := by
  by_cases h1 : (some j.sinking_fund_id == some i) = true
  · have hstep : stepJunction today ecId (some i) acc j = acc := by
      unfold stepJunction
      rw [if_pos h1]
    rw [hstep]
    exact ⟨rfl, rfl⟩
  · cases hfind : acc.funds.find?
        (fun f => f.id == j.sinking_fund_id && !f.is_deleted) with
    | none =>
        have hstep : stepJunction today ecId (some i) acc j = acc := by
          unfold stepJunction
          rw [if_neg h1, hfind]
        rw [hstep]
        exact ⟨rfl, rfl⟩
    | some fund =>
        have hfund0 := List.find?_some hfind
        have hfund : (fund.id == j.sinking_fund_id && !fund.is_deleted) = true :=
          hfund0
        have hfid : fund.id = j.sinking_fund_id := by
          have h2 := hfund
          simp only [Bool.and_eq_true, beq_iff_eq] at h2
          exact h2.1
        have hne : j.sinking_fund_id ≠ i := by
          intro he
          exact h1 (by simp [he])
        by_cases hle : j.allocation_amount ≤ 0
        · have hstep : stepJunction today ecId (some i) acc j = acc := by
            rw [stepJunction_found today ecId (some i) acc j fund h1 hfind,
              if_pos hle]
          rw [hstep]
          exact ⟨rfl, rfl⟩
        · have hstep : stepJunction today ecId (some i) acc j =
              ⟨acc.funds.map fun f =>
                  if f.id == fund.id then
                    { f with current_balance :=
                        f.current_balance + j.allocation_amount }
                  else f,
                acc.txs ++ [allocTx today ecId fund j.allocation_amount],
                acc.total + j.allocation_amount⟩ := by
            rw [stepJunction_found today ecId (some i) acc j fund h1 hfind,
              if_neg hle]
          rw [hstep]
          constructor
          · exact fundBalancesAt_credit_ne acc.funds i fund.id _
              (by rw [hfid]; exact hne)
          · unfold fundAllocTxs
            rw [List.filter_append,
              List.filter_cons_of_neg (by simp [allocTx, hfid, hne])]
            simp

theorem foldJunction_preserves_bills_fund (today : Date) (ecId i : Nat)
    (js : List Junction) (acc : AllocAcc) :
    fundBalancesAt (js.foldl (stepJunction today ecId (some i)) acc).funds i =
      fundBalancesAt acc.funds i ∧
    fundAllocTxs (js.foldl (stepJunction today ecId (some i)) acc).txs i =
      fundAllocTxs acc.txs i := by
  induction js generalizing acc with
  | nil => exact ⟨rfl, rfl⟩
  | cons j js ih =>
      obtain ⟨ihb, iht⟩ := ih (stepJunction today ecId (some i) acc j)
      obtain ⟨hb, ht⟩ := stepJunction_preserves_bills_fund today ecId i acc j
      exact ⟨by rw [List.foldl_cons, ihb, hb], by rw [List.foldl_cons, iht, ht]⟩

theorem applyBillsStep_of_nonpos {today : Date} {ecId : Nat}
    {alloc : IncomeAllocation} {bills : List RecurringBill}
    {bf : Option SinkingFund} {acc : AllocAcc}
    (h : ¬ 0 < billsAmount alloc bills) :
    applyBillsStep today ecId alloc bills bf acc = acc := by
  unfold applyBillsStep
  cases bf with
  | none => rfl
  | some f =>
      dsimp only
      rw [if_neg h]

/-- C10: with `bills_fund_allocation_type = "fixed"` and a null
`bills_fund_fixed_amount`, the Bills contribution is treated as 0: no
Bills-fund `income_allocation` transaction is created, the Bills fund
balance is unchanged, and the Bills step adds nothing to `total_allocated`
(the recorded unallocated amount has no Bills term). -/
theorem process_income_fixed_null_spec (today : Date) (s : IncomeState)
    (alloc : IncomeAllocation) (ic ec : Category) (bf : SinkingFund)
    (hg : s.transactions.any (isMonthIncomeTx today) = false)
    (ha : s.allocations.head? = some alloc)
    (hic : s.categories.find? (fun c => c.type == "income" && !c.is_deleted)
      = some ic)
    (hec : s.categories.find? (fun c => c.type == "expense" && !c.is_deleted)
      = some ec)
    (hb : s.funds.find? isBillsFund = some bf)
    (htype : alloc.bills_fund_allocation_type = "fixed")
    (hfix : alloc.bills_fund_fixed_amount = none) :
    billsAmount alloc s.bills = 0 ∧
    fundBalancesAt (process_income_allocation today s).funds bf.id =
      fundBalancesAt s.funds bf.id ∧
    fundAllocTxs (process_income_allocation today s).transactions bf.id =
      fundAllocTxs s.transactions bf.id ∧
    lookupUnallocated (process_income_allocation today s).unallocated
        today.month today.year =
      some (alloc.monthly_income_amount
        - appliedSum s.funds (some bf.id) alloc.sinking_fund_allocations
        - alloc.monthly_budget_allocation) := by
  have hba : billsAmount alloc s.bills = 0 := by
    unfold billsAmount
    rw [if_pos htype, hfix]
    rfl
  have hnonpos : ¬ 0 < billsAmount alloc s.bills := by
    rw [hba]
    exact lt_irrefl 0
  have hcontrib : billsContrib alloc s.bills (s.funds.find? isBillsFund) = 0 := by
    rw [hb]
    unfold billsContrib
    rw [if_neg hnonpos]
  refine ⟨hba, ?_, ?_, ?_⟩
  · rw [process_income_of_success hg ha hic hec]
    simp only [applyIncomeAllocation, hb, Option.map_some']
    rw [applyBillsStep_of_nonpos hnonpos]
    exact (foldJunction_preserves_bills_fund today ec.id bf.id
      alloc.sinking_fund_allocations _).1
  · rw [process_income_of_success hg ha hic hec]
    simp only [applyIncomeAllocation, hb, Option.map_some']
    rw [applyBillsStep_of_nonpos hnonpos]
    rw [(foldJunction_preserves_bills_fund today ec.id bf.id
      alloc.sinking_fund_allocations _).2]
    unfold fundAllocTxs
    rw [List.filter_append, List.filter_cons_of_neg (by simp [incomeTx])]
    simp
  · rw [process_income_of_success hg ha hic hec]
    rw [show (applyIncomeAllocation today s alloc ic ec).unallocated =
      upsertUnallocated s.unallocated today.month today.year
        (alloc.monthly_income_amount -
          (appliedSum s.funds ((s.funds.find? isBillsFund).map fun f => f.id)
              alloc.sinking_fund_allocations
            + billsContrib alloc s.bills (s.funds.find? isBillsFund)
            + alloc.monthly_budget_allocation)) from
      applyIncome_unallocated today s alloc ic ec]
    unfold lookupUnallocated
    rw [lookupUnallocated_upsert]
    rw [hcontrib, hb, Option.map_some']
    congr 1
    ring

/-- Allocation configured `fixed` with a null `bills_fund_fixed_amount`. -/
def exFixedAlloc : IncomeAllocation := ⟨5000, 800, "fixed", none, [⟨2, 500⟩]⟩

/-- The worked state for the fixed/null configuration. -/
def exFixedState : IncomeState :=
  ⟨exIncomeFunds, exIncomeBills, [], [exFixedAlloc], [exIncomeCat, exExpenseCat],
    [], []⟩

/-- Witness for C10: with the fixed/null configuration the Bills amount is 0
and the unallocated amount records `5000 − 500 − 800 = 3700` with no Bills
term. -/
theorem process_income_fixed_null_spec_witness :
    billsAmount exFixedAlloc exFixedState.bills = 0 ∧
    lookupUnallocated
      (process_income_allocation ⟨2026, 2, 1⟩ exFixedState).unallocated 2 2026 =
      some 3700 := by
  have h := process_income_fixed_null_spec ⟨2026, 2, 1⟩ exFixedState exFixedAlloc
    exIncomeCat exExpenseCat ⟨1, "Bills", 0, false⟩ rfl rfl rfl rfl rfl rfl rfl
  have h4 := h.2.2.2
  norm_num [appliedSum, junctionApplies, exFixedState, exIncomeFunds,
    exFixedAlloc] at h4
  exact ⟨h.1, h4⟩

/-- A database-session operation: an in-session mutation (`db.add`, attribute
assignment — visible only to the session until commit) or `db.commit()`. -/
inductive DbOp (σ : Type) where
  | modify : (σ → σ) → DbOp σ
  | commit : DbOp σ

/-- Outcome of one task invocation: whether an exception propagated to the
caller (after `db.rollback()` and re-raise), and the durable state. -/
structure DbRun (σ : Type) where
  raised : Bool
  persisted : σ

/-- Execute session operations with an injected failure: `failAt = some k`
raises before the k-th operation takes effect; the `except` handler rolls the
session back to the committed state and re-raises, so the durable state is
whatever was last committed. -/
def runOps {σ : Type} : List (DbOp σ) → Option Nat → σ → σ → DbRun σ
  | [], _, committed, _ => ⟨false, committed⟩
  | _ :: _, some 0, committed, _ => ⟨true, committed⟩
  | op :: rest, failAt, committed, pending =>
      match op with
      | .modify f => runOps rest (failAt.map fun k => k - 1) committed (f pending)
      | .commit => runOps rest (failAt.map fun k => k - 1) pending pending

/-- Run a task's operations in a fresh session over durable state `s`. -/
def runSession {σ : Type} (ops : List (DbOp σ)) (failAt : Option Nat)
    (s : σ) : DbRun σ :=
  runOps ops failAt s s

/-- The session operations `process_due_bills` performs: one mutation per due
bill, then a single commit at the end (none on the no-Bills-fund early
return). -/
def dueBillsOps (today : Date) (s : BillsState) : List (DbOp BillsState) :=
  match s.funds.find? isBillsFund with
  | none => []
  | some bf =>
      (((s.bills.filter (billDue today)).map fun b =>
        fun st => payBill today bf.id st b).map DbOp.modify) ++ [DbOp.commit]

/-- The session operations `process_income_allocation` performs: the
allocation body, then a single commit at the end (none on the early
returns). -/
def incomeOps (today : Date) (s : IncomeState) : List (DbOp IncomeState) :=
  if s.transactions.any (isMonthIncomeTx today) then []
  else
    match s.allocations.head? with
    | none => []
    | some alloc =>
        match s.categories.find? fun c => c.type == "income" && !c.is_deleted with
        | none => []
        | some ic =>
            match s.categories.find? fun c =>
                c.type == "expense" && !c.is_deleted with
            | none => []
            | some ec =>
                [DbOp.modify fun st => applyIncomeAllocation today st alloc ic ec,
                  DbOp.commit]

theorem runOps_modify_eq {σ : Type} (fs : List (σ → σ)) (rest : List (DbOp σ))
    (c p : σ) :
    runOps ((fs.map DbOp.modify) ++ rest) none c p =
      runOps rest none c (fs.foldl (fun x f => f x) p) := by
  induction fs generalizing p with
  | nil => rfl
  | cons f fs ih => exact ih (f p)

/-- Commit is the only operation that changes the durable state, and it is
last: a failure anywhere in the run leaves the durable state untouched. -/
theorem runOps_raised_committed {σ : Type} (fs : List (σ → σ))
    (failAt : Option Nat) (c p : σ) :
    (runOps ((fs.map DbOp.modify) ++ [DbOp.commit]) failAt c p).raised = true →
      (runOps ((fs.map DbOp.modify) ++ [DbOp.commit]) failAt c p).persisted = c := by
  induction fs generalizing failAt p with
  | nil =>
      cases failAt with
      | none => exact fun h => absurd h Bool.false_ne_true
      | some k =>
          cases k with
          | zero => exact fun _ => rfl
          | succ k2 => exact fun h => absurd h Bool.false_ne_true
  | cons f fs ih =>
      cases failAt with
      | none => exact fun h => ih none (f p) h
      | some k =>
          cases k with
          | zero => exact fun _ => rfl
          | succ k2 => exact fun h => ih (some k2) (f p) h

/-- C8: for both processors, a failure injected anywhere in the run is
re-raised and leaves the durable state exactly as it was (no transaction,
balance, Budget, due-date or unallocated-income change persists); a
failure-free run commits exactly the pure batch result. -/
theorem rollback_on_exception (todayB todayI : Date) (sB : BillsState)
    (sI : IncomeState) (failAt : Option Nat) :
    ((runSession (dueBillsOps todayB sB) failAt sB).raised = true →
      (runSession (dueBillsOps todayB sB) failAt sB).persisted = sB) ∧
    ((runSession (incomeOps todayI sI) failAt sI).raised = true →
      (runSession (incomeOps todayI sI) failAt sI).persisted = sI) ∧
    runSession (dueBillsOps todayB sB) none sB =
      ⟨false, process_due_bills todayB sB⟩ ∧
    runSession (incomeOps todayI sI) none sI =
      ⟨false, process_income_allocation todayI sI⟩ := by
  refine ⟨?_, ?_, ?_, ?_⟩
  · cases hf : sB.funds.find? isBillsFund with
    | none =>
        have hops : dueBillsOps todayB sB = [] := by
          unfold dueBillsOps; rw [hf]
        rw [hops]
        exact fun h => absurd h Bool.false_ne_true
    | some bf =>
        have hops : dueBillsOps todayB sB =
            (((sB.bills.filter (billDue todayB)).map fun b =>
              fun st => payBill todayB bf.id st b).map DbOp.modify) ++
              [DbOp.commit] := by
          unfold dueBillsOps; rw [hf]
        rw [hops]
        exact runOps_raised_committed _ failAt sB sB
  · by_cases hg : sI.transactions.any (isMonthIncomeTx todayI) = true
    · have hops : incomeOps todayI sI = [] := by
        unfold incomeOps; rw [if_pos hg]
      rw [hops]
      exact fun h => absurd h Bool.false_ne_true
    · have hg' := Bool.eq_false_iff.mpr hg
      cases ha : sI.allocations.head? with
      | none =>
          have hops : incomeOps todayI sI = [] := by
            simp only [incomeOps, hg', ha, Bool.false_eq_true, if_false]
          rw [hops]
          exact fun h => absurd h Bool.false_ne_true
      | some alloc =>
          cases hic : sI.categories.find?
              (fun c => c.type == "income" && !c.is_deleted) with
          | none =>
              have hops : incomeOps todayI sI = [] := by
                simp only [incomeOps, hg', ha, hic, Bool.false_eq_true, if_false]
              rw [hops]
              exact fun h => absurd h Bool.false_ne_true
          | some ic =>
              cases hec : sI.categories.find?
                  (fun c => c.type == "expense" && !c.is_deleted) with
              | none =>
                  have hops : incomeOps todayI sI = [] := by
                    simp only [incomeOps, hg', ha, hic, hec, Bool.false_eq_true,
                      if_false]
                  rw [hops]
                  exact fun h => absurd h Bool.false_ne_true
              | some ec =>
                  have hops : incomeOps todayI sI =
                      [DbOp.modify fun st =>
                        applyIncomeAllocation todayI st alloc ic ec,
                        DbOp.commit] := by
                    simp only [incomeOps, hg', ha, hic, hec, Bool.false_eq_true,
                      if_false]
                  rw [hops]
                  exact runOps_raised_committed
                    [fun st => applyIncomeAllocation todayI st alloc ic ec]
                    failAt sI sI
  · cases hf : sB.funds.find? isBillsFund with
    | none =>
        have hops : dueBillsOps todayB sB = [] := by
          unfold dueBillsOps; rw [hf]
        have h1 : process_due_bills todayB sB = sB := by
          unfold process_due_bills; rw [hf]
        rw [hops, h1]
        rfl
    | some bf =>
        have hops : dueBillsOps todayB sB =
            (((sB.bills.filter (billDue todayB)).map fun b =>
              fun st => payBill todayB bf.id st b).map DbOp.modify) ++
              [DbOp.commit] := by
          unfold dueBillsOps; rw [hf]
        have h1 : process_due_bills todayB sB =
            (sB.bills.filter (billDue todayB)).foldl (payBill todayB bf.id) sB := by
          unfold process_due_bills; rw [hf]
        rw [hops, h1]
        unfold runSession
        rw [runOps_modify_eq, List.foldl_map]
        rfl
  · by_cases hg : sI.transactions.any (isMonthIncomeTx todayI) = true
    · have hops : incomeOps todayI sI = [] := by
        unfold incomeOps; rw [if_pos hg]
      rw [hops, process_income_of_processed hg]
      rfl
    · have hg' := Bool.eq_false_iff.mpr hg
      cases ha : sI.allocations.head? with
      | none =>
          have hops : incomeOps todayI sI = [] := by
            simp only [incomeOps, hg', ha, Bool.false_eq_true, if_false]
          rw [hops, process_income_of_no_alloc hg' ha]
          rfl
      | some alloc =>
          cases hic : sI.categories.find?
              (fun c => c.type == "income" && !c.is_deleted) with
          | none =>
              have hops : incomeOps todayI sI = [] := by
                simp only [incomeOps, hg', ha, hic, Bool.false_eq_true, if_false]
              rw [hops, process_income_of_no_income_cat hg' ha hic]
              rfl
          | some ic =>
              cases hec : sI.categories.find?
                  (fun c => c.type == "expense" && !c.is_deleted) with
              | none =>
                  have hops : incomeOps todayI sI = [] := by
                    simp only [incomeOps, hg', ha, hic, hec, Bool.false_eq_true,
                      if_false]
                  rw [hops, process_income_of_no_expense_cat hg' ha hic hec]
                  rfl
              | some ec =>
                  have hops : incomeOps todayI sI =
                      [DbOp.modify fun st =>
                        applyIncomeAllocation todayI st alloc ic ec,
                        DbOp.commit] := by
                    simp only [incomeOps, hg', ha, hic, hec, Bool.false_eq_true,
                      if_false]
                  rw [hops, process_income_of_success hg' ha hic hec]
                  rfl

/-- Witness for C8: a failure injected at the first operation of each
processor's run is re-raised and persists nothing. -/
theorem rollback_on_exception_witness :
    (runSession (dueBillsOps ⟨2026, 2, 5⟩ exVariableState) (some 0)
      exVariableState).raised = true ∧
    (runSession (dueBillsOps ⟨2026, 2, 5⟩ exVariableState) (some 0)
      exVariableState).persisted = exVariableState ∧
    (runSession (incomeOps ⟨2026, 2, 1⟩ exIncomeState) (some 0)
      exIncomeState).persisted = exIncomeState := by
  have h := rollback_on_exception ⟨2026, 2, 5⟩ ⟨2026, 2, 1⟩ exVariableState
    exIncomeState (some 0)
  exact ⟨rfl, h.1 rfl, h.2.1 rfl⟩
